import Mathlib

/-!
Verification of the ProxyFlow forward-proxy gateway against its design
specification. Go code is shallowly embedded: Go strings become lists of
bytes (naturals), stateful loops become explicit state passing, fallible
operations return `Option`, and a panic (out-of-range slice index) is
modelled as `none`.
-/

set_option maxRecDepth 4000

namespace ProxyFlow

/-- Go strings are byte sequences; they are modelled as lists of naturals
(every byte is < 256 where that matters). -/
abbrev Bytes := List Nat

/-- The byte list of an ASCII Lean string literal (models a Go string
constant; all constants in the code are ASCII, so UTF-8 equals the
character codes). -/
def str (s : String) : Bytes := s.data.map Char.toNat

/-! ## encoding/base64, StdEncoding

The auth package uses `base64.StdEncoding.EncodeToString` and
`base64.StdEncoding.DecodeString` (RFC 4648 standard alphabet with
padding). The decoder ignores CR and LF bytes and, being the non-strict
encoding, does not insist that unused trailing bits of a short final
quantum are zero. -/

/-- The standard alphabet: 6-bit index to ASCII code. -/
def b64Char (n : Nat) : Nat :=
  if n < 26 then 65 + n
  else if n < 52 then 71 + n
  else if n < 62 then n - 4
  else if n = 62 then 43
  else 47

/-- Inverse of the alphabet: ASCII code back to its 6-bit index; `none` when
the byte is not an alphabet character ('=' included). -/
def b64Idx (c : Nat) : Option Nat :=
  if 65 ≤ c ∧ c ≤ 90 then some (c - 65)
  else if 97 ≤ c ∧ c ≤ 122 then some (c - 71)
  else if 48 ≤ c ∧ c ≤ 57 then some (c + 4)
  else if c = 43 then some 62
  else if c = 47 then some 63
  else none

/-- base64 encoding: three input bytes become four alphabet characters; a
final group of one or two bytes is padded with '=' (byte 61). -/
def b64Enc : Bytes → Bytes
  | a :: b :: c :: rest =>
      b64Char (a / 4) :: b64Char (a % 4 * 16 + b / 16) ::
        b64Char (b % 16 * 4 + c / 64) :: b64Char (c % 64) :: b64Enc rest
  | [a, b] => [b64Char (a / 4), b64Char (a % 4 * 16 + b / 16), b64Char (b % 16 * 4), 61]
  | [a] => [b64Char (a / 4), b64Char (a % 4 * 16), 61, 61]
  | [] => []

/-- base64 decoding over 4-byte quanta (CR/LF already removed). Padding
(byte 61, '=') is legal only at the very end; a leftover of 1 to 3 bytes is
a corrupt input. `none` models base64.CorruptInputError. -/
def b64DecQuanta : Bytes → Option Bytes
  | [] => some []
  | c1 :: c2 :: c3 :: c4 :: rest =>
    match b64Idx c1, b64Idx c2 with
    | some i1, some i2 =>
      if c3 = 61 then
        if c4 = 61 ∧ rest = [] then some [i1 * 4 + i2 / 16] else none
      else
        match b64Idx c3 with
        | some i3 =>
          if c4 = 61 then
            if rest = [] then some [i1 * 4 + i2 / 16, i2 % 16 * 16 + i3 / 4] else none
          else
            match b64Idx c4 with
            | some i4 =>
              match b64DecQuanta rest with
              | some bs =>
                  some ((i1 * 4 + i2 / 16) :: (i2 % 16 * 16 + i3 / 4) :: (i3 % 4 * 64 + i4) :: bs)
              | none => none
            | none => none
        | none => none
    | _, _ => none
  | _ => none

/-- base64.StdEncoding.DecodeString: CR (13) and LF (10) bytes are ignored,
the rest must form valid 4-byte quanta. -/
def b64Dec (s : Bytes) : Option Bytes :=
  b64DecQuanta (s.filter fun c => c != 10 && c != 13)

/-! ## internal/auth (src/internal/auth/auth.go) -/

/-- The header value marker "Basic " (6 bytes). -/
def basicHdr : Bytes := str "Basic "

/-- auth.EncodeBasicAuth: an empty username means "no auth needed" and
yields the empty string; otherwise "Basic " ++ base64(username ++ ":" ++
password). Byte 58 is ':'. -/
def EncodeBasicAuth (username password : Bytes) : Bytes :=
  if username = [] then []
  else basicHdr ++ b64Enc (username ++ 58 :: password)

/-- strings.SplitN(s, ":", 2) as used by DecodeBasicAuth: the part before
the first ':' and everything after it; `none` when there is no ':' at all
(SplitN then yields a single part and the code rejects the input). -/
def splitFirstColon : Bytes → Option (Bytes × Bytes)
  | [] => none
  | b :: rest =>
    if b = 58 then some ([], rest)
    else
      match splitFirstColon rest with
      | some (u, p) => some (b :: u, p)
      | none => none

/-- auth.DecodeBasicAuth: rejects an empty header, a header shorter than or
not equal to the "Basic " prefix on its first 6 bytes, a remainder that is
not valid base64, and decoded credentials without a ':'; otherwise splits
the decoded text at the first ':'. -/
def DecodeBasicAuth (authHeader : Bytes) : Option (Bytes × Bytes) :=
  if authHeader = [] then none
  else if basicHdr.isPrefixOf authHeader then
    match b64Dec (authHeader.drop 6) with
    | none => none
    | some decoded => splitFirstColon decoded
  else none

/-! ## Lemmas about the base64 embedding -/

theorem b64Idx_b64Char : ∀ i < 64, b64Idx (b64Char i) = some i := by decide

theorem b64Char_ge : ∀ i < 64, 43 ≤ b64Char i ∧ b64Char i ≠ 61 := by decide

theorem b64DecQuanta_enc : ∀ bs : Bytes, (∀ x ∈ bs, x < 256) →
    b64DecQuanta (b64Enc bs) = some bs
  | [], _ => rfl
  | [a], h => by
    have ha : a < 256 := h a (by simp)
    have h1 := b64Idx_b64Char (a / 4) (by omega)
    have h2 := b64Idx_b64Char (a % 4 * 16) (by omega)
    simp only [b64Enc, b64DecQuanta, h1, h2, if_pos rfl, and_self, if_true]
    congr 1
    have : (a % 4 * 16) / 16 = a % 4 := by omega
    simp [this]
    omega
  | [a, b], h => by
    have ha : a < 256 := h a (by simp)
    have hb : b < 256 := h b (by simp)
    have h1 := b64Idx_b64Char (a / 4) (by omega)
    have h2 := b64Idx_b64Char (a % 4 * 16 + b / 16) (by omega)
    have h3 := b64Idx_b64Char (b % 16 * 4) (by omega)
    have hne := (b64Char_ge (b % 16 * 4) (by omega)).2
    simp only [b64Enc, b64DecQuanta, h1, h2, h3, if_neg hne, if_pos rfl, if_true]
    congr 1
    congr 1
    · omega
    · congr 1
      omega
  | a :: b :: c :: rest, h => by
    have ha : a < 256 := h a (by simp)
    have hb : b < 256 := h b (by simp)
    have hc : c < 256 := h c (by simp)
    have ih := b64DecQuanta_enc rest (fun x hx => h x (by simp [hx]))
    have h1 := b64Idx_b64Char (a / 4) (by omega)
    have h2 := b64Idx_b64Char (a % 4 * 16 + b / 16) (by omega)
    have h3 := b64Idx_b64Char (b % 16 * 4 + c / 64) (by omega)
    have h4 := b64Idx_b64Char (c % 64) (by omega)
    have hne3 := (b64Char_ge (b % 16 * 4 + c / 64) (by omega)).2
    have hne4 := (b64Char_ge (c % 64) (by omega)).2
    simp only [b64Enc, b64DecQuanta, h1, h2, h3, h4, if_neg hne3, if_neg hne4, ih]
    congr 1
    congr 1
    · omega
    · congr 1
      · omega
      · congr 1
        omega

theorem b64Enc_mem : ∀ bs : Bytes, (∀ x ∈ bs, x < 256) → ∀ y ∈ b64Enc bs, 43 ≤ y
  | [], _ => by simp [b64Enc]
  | [a], h => by
    have ha : a < 256 := h a (by simp)
    have g1 := (b64Char_ge (a / 4) (by omega)).1
    have g2 := (b64Char_ge (a % 4 * 16) (by omega)).1
    intro y hy
    simp only [b64Enc, List.mem_cons, List.mem_singleton] at hy
    rcases hy with rfl | rfl | rfl | rfl | hy
    · exact g1
    · exact g2
    · omega
    · omega
    · simp at hy
  | [a, b], h => by
    have ha : a < 256 := h a (by simp)
    have hb : b < 256 := h b (by simp)
    have g1 := (b64Char_ge (a / 4) (by omega)).1
    have g2 := (b64Char_ge (a % 4 * 16 + b / 16) (by omega)).1
    have g3 := (b64Char_ge (b % 16 * 4) (by omega)).1
    intro y hy
    simp only [b64Enc, List.mem_cons, List.mem_singleton] at hy
    rcases hy with rfl | rfl | rfl | rfl | hy
    · exact g1
    · exact g2
    · exact g3
    · omega
    · simp at hy
  | a :: b :: c :: rest, h => by
    have ha : a < 256 := h a (by simp)
    have hb : b < 256 := h b (by simp)
    have hc : c < 256 := h c (by simp)
    have ih := b64Enc_mem rest (fun x hx => h x (by simp [hx]))
    have g1 := (b64Char_ge (a / 4) (by omega)).1
    have g2 := (b64Char_ge (a % 4 * 16 + b / 16) (by omega)).1
    have g3 := (b64Char_ge (b % 16 * 4 + c / 64) (by omega)).1
    have g4 := (b64Char_ge (c % 64) (by omega)).1
    intro y hy
    simp only [b64Enc, List.mem_cons] at hy
    rcases hy with rfl | rfl | rfl | rfl | hy
    · exact g1
    · exact g2
    · exact g3
    · exact g4
    · exact ih y hy

theorem b64Dec_enc (bs : Bytes) (h : ∀ x ∈ bs, x < 256) :
    b64Dec (b64Enc bs) = some bs := by
  unfold b64Dec
  rw [List.filter_eq_self.mpr, b64DecQuanta_enc bs h]
  intro a ha
  have := b64Enc_mem bs h a ha
  simp only [bne_iff_ne, ne_eq, Bool.and_eq_true, decide_eq_true_eq]
  omega

/-! ## Lemmas about the colon split -/

theorem splitFirstColon_append (u p : Bytes) (hc : 58 ∉ u) :
    splitFirstColon (u ++ 58 :: p) = some (u, p) := by
  induction u with
  | nil => simp [splitFirstColon]
  | cons b rest ih =>
    have hb : b ≠ 58 := by intro hx; exact hc (by simp [hx])
    have hrest : 58 ∉ rest := fun hx => hc (by simp [hx])
    simp [splitFirstColon, hb, ih hrest]

theorem splitFirstColon_eq_none (d : Bytes) : splitFirstColon d = none ↔ 58 ∉ d := by
  induction d with
  | nil => simp [splitFirstColon]
  | cons b rest ih =>
    by_cases hb : b = 58
    · subst hb; simp [splitFirstColon]
    · cases hs : splitFirstColon rest with
      | none =>
        simp only [splitFirstColon, if_neg hb, hs, List.mem_cons, true_iff]
        have := ih.mp hs
        intro hx
        rcases hx with hx | hx
        · exact hb hx.symm
        · exact this hx
      | some up =>
        obtain ⟨u, p⟩ := up
        simp only [splitFirstColon, if_neg hb, hs]
        constructor
        · intro hx; cases hx
        · intro hx
          exfalso
          have : ¬ (58 ∉ rest) := by
            intro hn
            rw [← ih] at hn
            rw [hn] at hs
            cases hs
          exact this (fun hm => hx (by simp [hm]))

theorem splitFirstColon_eq_some (d : Bytes) : ∀ u p : Bytes,
    splitFirstColon d = some (u, p) → 58 ∉ u ∧ d = u ++ 58 :: p := by
  induction d with
  | nil => intro u p hx; simp [splitFirstColon] at hx
  | cons b rest ih =>
    intro u p hx
    by_cases hb : b = 58
    · subst hb
      simp only [splitFirstColon, if_pos rfl, Option.some.injEq, Prod.mk.injEq] at hx
      obtain ⟨rfl, rfl⟩ := hx
      simp
    · cases hs : splitFirstColon rest with
      | none => rw [splitFirstColon] at hx; simp [hb, hs] at hx
      | some up =>
        obtain ⟨u', p'⟩ := up
        rw [splitFirstColon] at hx
        simp only [if_neg hb, hs, Option.some.injEq, Prod.mk.injEq] at hx
        obtain ⟨rfl, rfl⟩ := hx
        obtain ⟨h1, h2⟩ := ih u' p' hs
        constructor
        · intro hm
          rcases List.mem_cons.mp hm with hm | hm
          · exact hb hm.symm
          · exact h1 hm
        · simp [h2]

/-! ## Claim C1: encode/decode round trip -/

/-- C1 (counterexample): the round-trip law fails for the empty username,
which the claim explicitly includes. EncodeBasicAuth with an empty username
returns the empty string (meaning "no auth needed"), and DecodeBasicAuth
rejects the empty string, so the pair is not recovered. -/
theorem C1_counterexample :
    DecodeBasicAuth (EncodeBasicAuth [] (str "pw")) ≠ some ([], str "pw") := by
  decide

/-- C1 (amended): for every non-empty username without ':' and every
password, decoding the header value produced by encoding yields the
original pair. (The byte bounds record that Go strings are byte
sequences.) -/
theorem C1_roundtrip (u p : Bytes) (hu : u ≠ []) (hc : 58 ∉ u)
    (hub : ∀ x ∈ u, x < 256) (hpb : ∀ x ∈ p, x < 256) :
    DecodeBasicAuth (EncodeBasicAuth u p) = some (u, p) := by
  have hbytes : ∀ x ∈ u ++ 58 :: p, x < 256 := by
    intro x hx
    rcases List.mem_append.mp hx with hx | hx
    · exact hub x hx
    · rcases List.mem_cons.mp hx with rfl | hx
      · omega
      · exact hpb x hx
  rw [EncodeBasicAuth, if_neg hu, DecodeBasicAuth]
  have hne : basicHdr ++ b64Enc (u ++ 58 :: p) ≠ [] := by
    simp [basicHdr, str]
  rw [if_neg hne]
  have hpre : basicHdr.isPrefixOf (basicHdr ++ b64Enc (u ++ 58 :: p)) = true := by
    rw [List.isPrefixOf_iff_prefix]
    exact List.prefix_append _ _
  rw [if_pos hpre]
  have hdrop : (basicHdr ++ b64Enc (u ++ 58 :: p)).drop 6 = b64Enc (u ++ 58 :: p) := by
    have h6 : basicHdr.length = 6 := by decide
    rw [← h6, List.drop_left]
  rw [hdrop, b64Dec_enc _ hbytes]
  exact splitFirstColon_append u p hc

/-- C1 (witness for the amended theorem at a concrete input). -/
theorem C1_roundtrip_witness :
    DecodeBasicAuth (EncodeBasicAuth (str "user") (str "pa:ss")) =
      some (str "user", str "pa:ss") :=
  C1_roundtrip (str "user") (str "pa:ss") (by decide) (by decide) (by decide) (by decide)

/-! ## Claim C6: failure conditions of DecodeBasicAuth -/

/-- C6: DecodeBasicAuth fails exactly when the input is empty, or does not
start with "Basic ", or the remainder after the 6-byte marker is not valid
base64, or the decoded text contains no ':'; on success it splits the
decoded text at the first ':' only, so the returned username contains no
':' while the returned password is the full remainder (which may contain
':'). -/
theorem C6_decode_cases (h : Bytes) :
    (DecodeBasicAuth h = none ↔
      h = [] ∨ basicHdr.isPrefixOf h = false ∨ b64Dec (h.drop 6) = none ∨
        ∃ d, b64Dec (h.drop 6) = some d ∧ 58 ∉ d) ∧
    ∀ u p, DecodeBasicAuth h = some (u, p) →
      58 ∉ u ∧ b64Dec (h.drop 6) = some (u ++ 58 :: p) := by
  constructor
  · by_cases h0 : h = []
    · simp [DecodeBasicAuth, h0]
    · by_cases hp : basicHdr.isPrefixOf h
      · rw [DecodeBasicAuth, if_neg h0, if_pos hp]
        cases hd : b64Dec (h.drop 6) with
        | none => simp [h0, hp, hd]
        | some d =>
          simp only [h0, hp, hd, false_or, Bool.true_eq_false, Option.some.injEq,
            reduceCtorEq, exists_eq_left']
          rw [splitFirstColon_eq_none]
      · rw [DecodeBasicAuth, if_neg h0, if_neg hp]
        simp [Bool.eq_false_iff.mpr hp]
  · intro u p hsome
    rw [DecodeBasicAuth] at hsome
    by_cases h0 : h = []
    · rw [if_pos h0] at hsome; cases hsome
    · rw [if_neg h0] at hsome
      by_cases hp : basicHdr.isPrefixOf h
      · rw [if_pos hp] at hsome
        cases hd : b64Dec (h.drop 6) with
        | none => rw [hd] at hsome; cases hsome
        | some d =>
          rw [hd] at hsome
          change splitFirstColon d = some (u, p) at hsome
          obtain ⟨h1, h2⟩ := splitFirstColon_eq_some d u p hsome
          exact ⟨h1, congrArg some h2⟩
      · rw [if_neg hp] at hsome; cases hsome

/-- C6 (witness at a concrete input with a colon in the password). -/
theorem C6_decode_cases_witness :
    58 ∉ str "a" ∧
      b64Dec ((EncodeBasicAuth (str "a") (str "b:c")).drop 6) =
        some (str "a" ++ 58 :: str "b:c") :=
  (C6_decode_cases (EncodeBasicAuth (str "a") (str "b:c"))).2 (str "a") (str "b:c")
    (by decide)

/-! ## internal/models (src/internal/models/proxy.go) and
internal/pool (src/internal/pool/pool.go)

models.ProxyInfo stores the parsed URL, the host, and the credentials;
downstream code reads only the URL's scheme besides the three string
fields, so the URL is embedded as its scheme. The zero value (Go's
`models.ProxyInfo{}`) has every field empty. -/

structure ProxyInfo where
  scheme : Bytes
  host : Bytes
  username : Bytes
  password : Bytes
deriving DecidableEq

/-- The zero-value sentinel `models.ProxyInfo{}`. -/
def ProxyInfo.zero : ProxyInfo := ⟨[], [], [], []⟩

/-- pool.Pool: the ordered proxy list and the shared signed 64-bit
round-robin counter (`current int64`). -/
structure Pool where
  proxies : List ProxyInfo
  current : Int
deriving DecidableEq

/-- 2^63, the bound of Go's int64. -/
def i63 : Int := 9223372036854775808

/-- 2^64. -/
def i64 : Int := 18446744073709551616

/-- Go's `atomic.AddInt64(&p.current, 1)`: int64 addition wraps around, so
incrementing MaxInt64 yields MinInt64. -/
def addInt64One (c : Int) : Int := (c + 1 + i63) % i64 - i63

/-- pool.NextProxy: an empty pool returns the zero-value sentinel;
otherwise the shared counter is atomically incremented and the list is
indexed at `counter % len` using Go's `%`, which truncates toward zero, so
a negative counter value produces a negative remainder. Indexing a Go
slice out of range panics; a panic is modelled as `none`. -/
def Pool.NextProxy (p : Pool) : Pool × Option ProxyInfo :=
  if p.proxies.length = 0 then (p, some ProxyInfo.zero)
  else
    let c := addInt64One p.current
    let index := Int.tmod c (p.proxies.length : Int)
    (⟨p.proxies, c⟩,
      if hx : 0 ≤ index ∧ index < (p.proxies.length : Int) then
        some (p.proxies.get ⟨index.toNat, by omega⟩)
      else none)

/-- pool.Size. -/
def Pool.Size (p : Pool) : Nat := p.proxies.length

/-- `n` sequential (serialized) NextProxy calls, collecting the results. -/
def seqNextProxy : Pool → Nat → Pool × List (Option ProxyInfo)
  | p, 0 => (p, [])
  | p, k + 1 =>
    let s1 := p.NextProxy
    let s2 := seqNextProxy s1.1 k
    (s2.1, s1.2 :: s2.2)

/-- The proxies that `k` sequential calls starting at (non-negative)
counter value `cn` select: the j-th call uses index (cn + 1 + j) % len. -/
def attemptsFrom (l : List ProxyInfo) : Nat → Nat → List ProxyInfo
  | _, 0 => []
  | cn, k + 1 =>
    l.getD ((cn + 1) % l.length) ProxyInfo.zero :: attemptsFrom l (cn + 1) k

theorem NextProxy_no_wrap (l : List ProxyInfo) (c : Int) (hl : l ≠ [])
    (h0 : 0 ≤ c) (h1 : c + 1 < i63) :
    Pool.NextProxy ⟨l, c⟩ =
      (⟨l, c + 1⟩, some (l.getD ((c.toNat + 1) % l.length) ProxyInfo.zero)) := by
  have hlen : l.length ≠ 0 := by
    intro hx; exact hl (List.length_eq_zero.mp hx)
  have h1' : c + 1 < 9223372036854775808 := h1
  have hadd : addInt64One c = c + 1 := by
    unfold addInt64One i63 i64
    rw [Int.emod_eq_of_lt (by omega) (by omega)]
    omega
  have hcast : c + 1 = ((c.toNat + 1 : Nat) : Int) := by omega
  have hpos : (0 : Int) < (l.length : Int) := by
    have := Nat.pos_of_ne_zero hlen
    exact_mod_cast this
  have htm : Int.tmod (c + 1) (l.length : Int) = (((c.toNat + 1) % l.length : Nat) : Int) := by
    rw [Int.tmod_eq_emod (by omega) (by omega), hcast]
    push_cast
    ring
  simp only [Pool.NextProxy, hlen, if_neg hlen, hadd, htm]
  have hmodlt : (c.toNat + 1) % l.length < l.length := Nat.mod_lt _ (Nat.pos_of_ne_zero hlen)
  have hcond : (0 : Int) ≤ (((c.toNat + 1) % l.length : Nat) : Int) ∧
      (((c.toNat + 1) % l.length : Nat) : Int) < (l.length : Int) := by
    constructor
    · positivity
    · exact_mod_cast hmodlt
  rw [dif_pos hcond]
  rw [List.getD_eq_getElem l ProxyInfo.zero hmodlt]
  simp only [Int.toNat_natCast, List.get_eq_getElem]
  simp

/-- The results of `k` serialized calls, while the counter does not wrap:
each call returns the list entry at the next counter value mod length. -/
theorem seqNextProxy_no_wrap (l : List ProxyInfo) (hl : l ≠ []) :
    ∀ (k : Nat) (c : Int), 0 ≤ c → c + k < i63 →
      seqNextProxy ⟨l, c⟩ k =
        (⟨l, c + k⟩, (attemptsFrom l c.toNat k).map some) := by
  intro k
  induction k with
  | zero =>
    intro c h0 h1
    simp [seqNextProxy, attemptsFrom]
  | succ n ih =>
    intro c h0 h1
    have hn1 : c + ↑(n + 1) < i63 := h1
    have hstep := NextProxy_no_wrap l c hl h0 (by push_cast at hn1; omega)
    have hrest := ih (c + 1) (by omega) (by push_cast at hn1 ⊢; omega)
    have htoNat : (c + 1).toNat = c.toNat + 1 := by omega
    have hcount : c + 1 + ↑n = c + ↑(n + 1) := by push_cast; ring
    rw [htoNat] at hrest
    simp only [seqNextProxy, hstep, hrest, hcount, attemptsFrom, List.map_cons]

theorem attemptsFrom_length (l : List ProxyInfo) :
    ∀ (k cn : Nat), (attemptsFrom l cn k).length = k
  | 0, _ => rfl
  | k + 1, cn => by
    simp [attemptsFrom, attemptsFrom_length l k (cn + 1)]

theorem attemptsFrom_getElem (l : List ProxyInfo) :
    ∀ (k cn j : Nat) (h2 : j < (attemptsFrom l cn k).length),
      (attemptsFrom l cn k)[j] = l.getD ((cn + 1 + j) % l.length) ProxyInfo.zero := by
  intro k
  induction k with
  | zero =>
    intro cn j h2
    rw [attemptsFrom_length] at h2
    omega
  | succ n ih =>
    intro cn j h2
    match j with
    | 0 => simp [attemptsFrom]
    | j + 1 =>
      have h2' : j < (attemptsFrom l (cn + 1) n).length := by
        rw [attemptsFrom_length] at h2 ⊢
        omega
      simp only [attemptsFrom, List.getElem_cons_succ]
      rw [ih (cn + 1) j h2']
      congr 2
      omega

/-- The full round of `len` attempts is the list rotated by (cn + 1) mod
len, hence a permutation of the list. -/
theorem attemptsFrom_rotate (l : List ProxyInfo) (cn : Nat) (hl : l ≠ []) :
    attemptsFrom l cn l.length = l.rotate ((cn + 1) % l.length) := by
  have hlen : 0 < l.length := List.length_pos.mpr hl
  apply List.ext_getElem
  · simp [attemptsFrom_length]
  · intro j h1 h2
    rw [attemptsFrom_getElem l l.length cn j h1]
    rw [List.getElem_rotate]
    have h2' : j < l.length := by
      simpa using h2
    have hidx : (cn + 1 + j) % l.length = (j + (cn + 1) % l.length) % l.length := by
      conv_rhs => rw [Nat.add_mod, Nat.mod_mod_of_dvd _ dvd_rfl, ← Nat.add_mod]
      rw [Nat.add_comm]
    rw [hidx, List.getD_eq_getElem]

theorem attemptsFrom_perm (l : List ProxyInfo) (cn : Nat) (hl : l ≠ []) :
    (attemptsFrom l cn l.length).Perm l := by
  rw [attemptsFrom_rotate l cn hl]
  exact List.rotate_perm l ((cn + 1) % l.length)

/-! ## Claims C2 and C10: the round-robin cursor -/

/-- A concrete proxy for counterexamples and witnesses. -/
def pA : ProxyInfo := ⟨str "http", str "10.0.0.1:8080", [], []⟩

/-- A second concrete proxy. -/
def pB : ProxyInfo := ⟨str "http", str "10.0.0.2:8080", [], []⟩

/-- A third concrete proxy. -/
def pC : ProxyInfo := ⟨str "http", str "10.0.0.3:8080", [], []⟩

/-- C2 (counterexample): with N = 2 proxies and starting counter value -2
(a value the signed 64-bit counter reaches after wrapping), the first of
the two sequential NextProxy calls computes index (-1) mod 2 = -1 under
Go's truncated %, which is an out-of-range slice index (a panic, modelled
as `none`): the two calls do not return each proxy exactly once. -/
theorem C2_counterexample :
    ¬ ((seqNextProxy ⟨[pA, pB], -2⟩ 2).2).Perm ([pA, pB].map some) := by
  decide

/-- C2 (amended): for every static pool with N ≥ 1 proxies and every
starting counter value c with 0 ≤ c and c + N < 2^63 (that is, as long as
the counter does not wrap), N sequential NextProxy calls return each of
the N proxies exactly once, in the fixed order given by rotating the list
as loaded to position (c + 1) mod N. -/
theorem C2_round_robin (l : List ProxyInfo) (c : Int) (hl : l ≠ [])
    (h0 : 0 ≤ c) (h1 : c + l.length < i63) :
    (seqNextProxy ⟨l, c⟩ l.length).2 =
        (l.rotate ((c.toNat + 1) % l.length)).map some ∧
      ((seqNextProxy ⟨l, c⟩ l.length).2).Perm (l.map some) := by
  rw [seqNextProxy_no_wrap l hl l.length c h0 h1]
  constructor
  · rw [attemptsFrom_rotate l c.toNat hl]
  · exact (attemptsFrom_perm l c.toNat hl).map some

/-- C2 (witness at a concrete 3-proxy pool and counter 5). -/
theorem C2_round_robin_witness :
    (seqNextProxy ⟨[pA, pB, pC], 5⟩ 3).2 =
        ([pA, pB, pC].rotate ((Int.toNat 5 + 1) % 3)).map some ∧
      ((seqNextProxy ⟨[pA, pB, pC], 5⟩ 3).2).Perm ([pA, pB, pC].map some) :=
  C2_round_robin [pA, pB, pC] 5 (by decide) (by decide) (by decide)

/-- C10 (counterexample): with the counter at MaxInt64 = 2^63 - 1, the
atomic increment wraps to MinInt64 and the computed index is
MinInt64 mod 3 = -2 under Go's truncated %, out of range for the slice:
NextProxy does not return an element of the list (it panics, modelled as
`none`). -/
theorem C10_counterexample :
    (Pool.NextProxy ⟨[pA, pB, pC], 9223372036854775807⟩).2 = none := by
  decide

/-- C10 (amended): for every pool with a non-empty proxy list and every
counter value c with 0 ≤ c that does not yet wrap (c + 1 < 2^63),
NextProxy returns an element of the list: the computed index is within
bounds. After the wrap the index may be negative and the slice access is
out of range. -/
theorem C10_next_in_list (l : List ProxyInfo) (c : Int) (hl : l ≠ [])
    (h0 : 0 ≤ c) (h1 : c + 1 < i63) :
    ∃ x ∈ l, (Pool.NextProxy ⟨l, c⟩).2 = some x := by
  rw [NextProxy_no_wrap l c hl h0 h1]
  have hlen : 0 < l.length := List.length_pos.mpr hl
  have hmod : (c.toNat + 1) % l.length < l.length := Nat.mod_lt _ hlen
  refine ⟨l.getD ((c.toNat + 1) % l.length) ProxyInfo.zero, ?_, rfl⟩
  rw [List.getD_eq_getElem l ProxyInfo.zero hmod]
  exact List.getElem_mem _

/-- C10 (witness at a concrete pool and counter 7). -/
theorem C10_next_in_list_witness :
    ∃ x ∈ [pA, pB, pC], (Pool.NextProxy ⟨[pA, pB, pC], 7⟩).2 = some x :=
  C10_next_in_list [pA, pB, pC] 7 (by decide) (by decide) (by decide)

/-! ## net/url, restricted to what pool.parseProxy reads

parseProxy calls url.Parse and then uses only the URL's Scheme, Host and
User fields. The embedding below models url.Parse for those components:
control-byte rejection, fragment and query cutting, scheme validation and
lowercasing, the "//" authority form (any other shape leaves the host
empty), the last-'@' user-info split with character validation and
percent decoding, and host/port validation. Path escaping after the
authority is not modelled (parseProxy never reads the path). -/

/-- ASCII letter. -/
def isAlphaB (c : Nat) : Bool := (65 ≤ c && c ≤ 90) || (97 ≤ c && c ≤ 122)

/-- ASCII digit. -/
def isDigitB (c : Nat) : Bool := 48 ≤ c && c ≤ 57

/-- A character allowed after the first position of a scheme: letters,
digits, '+', '-', '.'. -/
def isSchemeByte (c : Nat) : Bool := isAlphaB c || isDigitB c || c = 43 || c = 45 || c = 46

/-- strings.ToLower on an ASCII byte. -/
def lowerByte (c : Nat) : Nat := if 65 ≤ c ∧ c ≤ 90 then c + 32 else c

/-- A control byte,0x00..0x1f or 0x7f: url.Parse rejects URLs containing
one. -/
def ctlByte (c : Nat) : Bool := c < 32 || c = 127

/-- strings.Cut at the first occurrence of byte `t`: the parts before and
after it, `none` when `t` does not occur. -/
def cutFirst (t : Nat) : Bytes → Option (Bytes × Bytes)
  | [] => none
  | c :: rest =>
    if c = t then some ([], rest)
    else (cutFirst t rest).map fun ab => (c :: ab.1, ab.2)

/-- Split at the last occurrence of byte `t`. -/
def cutLast (t : Nat) (s : Bytes) : Option (Bytes × Bytes) :=
  (cutFirst t s.reverse).map fun ab => (ab.2.reverse, ab.1.reverse)

/-- net/url's getScheme: a valid scheme starts with a letter and continues
with letters, digits, '+', '-' or '.'; a ':' at position 0 is an error
("missing protocol scheme"); any other character before a ':' means the
URL has no scheme and the whole input is the remainder. The scheme is
lowercased by the caller; that is folded in here. `acc` holds the scheme
bytes read so far, reversed. -/
def getSchemeLoop (orig : Bytes) (acc : Bytes) : Bytes → Option (Bytes × Bytes)
  | [] => some ([], orig)
  | c :: rest =>
    if c = 58 then
      if acc = [] then none
      else some ((acc.reverse).map lowerByte, rest)
    else if (acc = [] ∧ isAlphaB c) ∨ (acc ≠ [] ∧ isSchemeByte c) then
      getSchemeLoop orig (c :: acc) rest
    else some ([], orig)

/-- The value of an ASCII hex digit. -/
def hexVal (c : Nat) : Option Nat :=
  if 48 ≤ c ∧ c ≤ 57 then some (c - 48)
  else if 65 ≤ c ∧ c ≤ 70 then some (c - 55)
  else if 97 ≤ c ∧ c ≤ 102 then some (c - 87)
  else none

/-- Percent-decoding (net/url unescape): "%XY" with two hex digits becomes
one byte; a '%' not followed by two hex digits is an EscapeError. -/
def unescapePct : Bytes → Option Bytes
  | [] => some []
  | 37 :: h :: l :: rest =>
    match hexVal h, hexVal l with
    | some hv, some lv => (unescapePct rest).map fun r => (hv * 16 + lv) :: r
    | _, _ => none
  | c :: rest =>
    if c = 37 then none else (unescapePct rest).map fun r => c :: r

/-- net/url validUserinfo: letters, digits, and "-._:~!$&'()*+,;=%@". -/
def validUserinfoByte (c : Nat) : Bool :=
  isAlphaB c || isDigitB c ||
    c = 45 || c = 46 || c = 95 || c = 58 || c = 126 || c = 33 || c = 36 ||
    c = 38 || c = 39 || c = 40 || c = 41 || c = 42 || c = 43 || c = 44 ||
    c = 59 || c = 61 || c = 37 || c = 64

/-- net/url validOptionalPort: empty, or ':' followed by digits (possibly
none). -/
def validOptionalPort : Bytes → Bool
  | [] => true
  | 58 :: digits => digits.all isDigitB
  | _ => false

/-- net/url parseHost: a '['-bracketed host must have a closing ']' and at
most a valid ":port" after it; otherwise whatever follows the last ':'
must be a valid port; the host is then percent-decoded. The empty host is
accepted. -/
def parseHost (host : Bytes) : Option Bytes :=
  match host with
  | 91 :: _ =>
    match cutLast 93 host with
    | none => none
    | some ab => if validOptionalPort ab.2 then unescapePct host else none
  | _ =>
    match cutLast 58 host with
    | none => unescapePct host
    | some ab => if validOptionalPort (58 :: ab.2) then unescapePct host else none

/-- The components of a parsed URL that parseProxy reads. `hasUser` models
`URL.User != nil`; `hasPassword` models the second return of
`User.Password()`. -/
structure GoURL where
  scheme : Bytes
  host : Bytes
  hasUser : Bool
  username : Bytes
  hasPassword : Bool
  password : Bytes
deriving DecidableEq

/-- net/url parseAuthority: split at the last '@'; the user info must pass
validUserinfo and is split at its first ':' into username and password,
each percent-decoded; the rest is the host. -/
def parseAuthority (authority : Bytes) : Option (Bool × Bytes × Bool × Bytes × Bytes) :=
  match cutLast 64 authority with
  | none => (parseHost authority).map fun h => (false, [], false, [], h)
  | some ui_host =>
    if ui_host.1.all validUserinfoByte then
      match parseHost ui_host.2 with
      | none => none
      | some h =>
        match cutFirst 58 ui_host.1 with
        | none => (unescapePct ui_host.1).map fun u => (true, u, false, [], h)
        | some up =>
          match unescapePct up.1, unescapePct up.2 with
          | some u, some p => some (true, u, true, p, h)
          | _, _ => none
    else none

/-- url.Parse, for the components parseProxy reads: reject control bytes,
cut the fragment at the first '#', extract the scheme, cut the query at
the first '?', and when the remainder starts with "//" parse the
authority up to the first '/'; any other remainder shape leaves the host
empty (opaque or path-only URL). -/
def goUrlParse (s : Bytes) : Option GoURL :=
  if s.any ctlByte then none
  else
    let noFrag := match cutFirst 35 s with
      | none => s
      | some ab => ab.1
    match getSchemeLoop noFrag [] noFrag with
    | none => none
    | some scheme_rest =>
      let rest := match cutFirst 63 scheme_rest.2 with
        | none => scheme_rest.2
        | some ab => ab.1
      match rest with
      | 47 :: 47 :: tail =>
        let auth := match cutFirst 47 tail with
          | none => tail
          | some ab => ab.1
        match parseAuthority auth with
        | none => none
        | some r => some ⟨scheme_rest.1, r.2.2.2.2, r.1, r.2.1, r.2.2.1, r.2.2.2.1⟩
      | _ => some ⟨scheme_rest.1, [], false, [], false, []⟩

/-! ## pool.NewPool and pool.parseProxy (src/internal/pool/pool.go) -/

/-- pool.parseProxy: url.Parse the line, require scheme http or https,
and build the ProxyInfo from the URL's host and optional user info. -/
def parseProxy (proxyStr : Bytes) : Option ProxyInfo :=
  match goUrlParse proxyStr with
  | none => none
  | some u =>
    if u.scheme = str "http" ∨ u.scheme = str "https" then
      some ⟨u.scheme, u.host,
        if u.hasUser then u.username else [],
        if u.hasUser && u.hasPassword then u.password else []⟩
    else none

/-- An ASCII whitespace byte (strings.TrimSpace; proxy-list lines are
ASCII). -/
def isSpaceByte (c : Nat) : Bool :=
  c = 32 || c = 9 || c = 10 || c = 11 || c = 12 || c = 13

/-- strings.TrimSpace. -/
def trimSpace (s : Bytes) : Bytes :=
  ((s.dropWhile isSpaceByte).reverse.dropWhile isSpaceByte).reverse

/-- pool.loadProxies over the file's lines: each line is trimmed; blank
lines and lines starting with '#' (35) are skipped; lines that fail
parseProxy are skipped with a warning; the rest are appended in order. -/
def loadProxies : List Bytes → List ProxyInfo
  | [] => []
  | line :: rest =>
    let t := trimSpace line
    if t = [] ∨ t.headD 0 = 35 then loadProxies rest
    else
      match parseProxy t with
      | none => loadProxies rest
      | some pi => pi :: loadProxies rest

/-- pool.NewPool: load the list; fail when no valid proxies result; the
round-robin counter starts at 0. -/
def NewPool (lines : List Bytes) : Option Pool :=
  if loadProxies lines = [] then none else some ⟨loadProxies lines, 0⟩

/-- A line is counted when, after trimming, it is non-blank, is not a '#'
comment, and parses with a supported scheme. -/
def keepLine (line : Bytes) : Bool :=
  let t := trimSpace line
  if t = [] ∨ t.headD 0 = 35 then false
  else (parseProxy t).isSome

theorem loadProxies_length : ∀ lines : List Bytes,
    (loadProxies lines).length = (lines.filter keepLine).length
  | [] => rfl
  | line :: rest => by
    by_cases hb : trimSpace line = [] ∨ (trimSpace line).headD 0 = 35
    · simp only [loadProxies, keepLine, List.filter_cons, hb, if_pos hb]
      simp [loadProxies_length rest, hb]
    · cases hp : parseProxy (trimSpace line) with
      | none =>
        simp only [loadProxies, keepLine, List.filter_cons, if_neg hb, hp]
        simp [loadProxies_length rest, hb, hp]
      | some pi =>
        simp only [loadProxies, keepLine, List.filter_cons, if_neg hb, hp]
        simp [loadProxies_length rest, hb, hp]

/-! ## Claim C7: pool size equals the count of valid lines -/

/-- C7: for every proxy list file, after successful pool construction
Size() equals the number of lines that are non-blank after trimming, do
not start with '#', and parse with scheme http or https (keepLine); and
when that count is zero, construction fails with an error instead of
returning a pool. -/
theorem C7_size_eq_valid_lines (lines : List Bytes) :
    (∀ p, NewPool lines = some p → p.Size = (lines.filter keepLine).length) ∧
    ((lines.filter keepLine).length = 0 → NewPool lines = none) := by
  constructor
  · intro p hp
    unfold NewPool at hp
    by_cases hz : loadProxies lines = []
    · rw [if_pos hz] at hp; cases hp
    · rw [if_neg hz] at hp
      cases hp
      exact loadProxies_length lines
  · intro hz
    unfold NewPool
    rw [if_pos]
    exact List.length_eq_zero.mp ((loadProxies_length lines).trans hz)

/-- A small proxy-list file: a comment, a padded valid line, a blank line,
a junk line, and a valid line with credentials. -/
def demoLines : List Bytes :=
  [str "# comment", str "  http://1.2.3.4:8080  ", str "", str "bad line",
    str "https://u:p@h:1"]

/-- C7 (witness): on the demo file the pool holds exactly the two valid
lines. -/
theorem C7_size_witness :
    (Pool.mk (loadProxies demoLines) 0).Size = (demoLines.filter keepLine).length :=
  (C7_size_eq_valid_lines demoLines).1 ⟨loadProxies demoLines, 0⟩ (by decide)

/-! ## Claim C8: the data-model invariant of stored proxies -/

/-- Any line parseProxy accepts yields a supported scheme (the code checks
exactly this). -/
theorem parseProxy_scheme (line : Bytes) (pi : ProxyInfo)
    (h : parseProxy line = some pi) :
    pi.scheme = str "http" ∨ pi.scheme = str "https" := by
  unfold parseProxy at h
  cases hu : goUrlParse line with
  | none => rw [hu] at h; cases h
  | some u =>
    rw [hu] at h
    have h' : (if u.scheme = str "http" ∨ u.scheme = str "https" then
        some (⟨u.scheme, u.host, if u.hasUser then u.username else [],
          if u.hasUser && u.hasPassword then u.password else []⟩ : ProxyInfo)
      else none) = some pi := h
    by_cases hs : u.scheme = str "http" ∨ u.scheme = str "https"
    · rw [if_pos hs] at h'
      cases h'
      exact hs
    · rw [if_neg hs] at h'; cases h'

theorem loadProxies_scheme : ∀ (lines : List Bytes) (pi : ProxyInfo),
    pi ∈ loadProxies lines → pi.scheme = str "http" ∨ pi.scheme = str "https"
  | [], _, h => by cases h
  | line :: rest, pi, h => by
    rw [loadProxies] at h
    by_cases hb : trimSpace line = [] ∨ (trimSpace line).headD 0 = 35
    · rw [if_pos hb] at h
      exact loadProxies_scheme rest pi h
    · rw [if_neg hb] at h
      cases hp : parseProxy (trimSpace line) with
      | none =>
        rw [hp] at h
        exact loadProxies_scheme rest pi h
      | some pj =>
        rw [hp] at h
        rcases List.mem_cons.mp h with rfl | h
        · exact parseProxy_scheme (trimSpace line) pi hp
        · exact loadProxies_scheme rest pi h

/-- C8 (counterexample): the line "http://" is accepted by the pool's line
parser — url.Parse succeeds with scheme "http" and an EMPTY host — so the
stored ProxyInfo violates the claimed invariant that the host string is
non-empty and in host:port form. -/
theorem C8_counterexample :
    parseProxy (str "http://") = some ⟨str "http", [], [], []⟩ := by
  decide

/-- C8 (amended): every ProxyInfo stored in a successfully constructed
pool has scheme http or https. The host part of the claimed invariant
does not hold: the parser performs no host validation beyond url.Parse,
so the host may be empty (line "http://") or lack a port. -/
theorem C8_pool_scheme_invariant (lines : List Bytes) (p : Pool)
    (hp : NewPool lines = some p) :
    ∀ pi ∈ p.proxies, pi.scheme = str "http" ∨ pi.scheme = str "https" := by
  intro pi hpi
  unfold NewPool at hp
  by_cases hz : loadProxies lines = []
  · rw [if_pos hz] at hp; cases hp
  · rw [if_neg hz] at hp
    cases hp
    exact loadProxies_scheme lines pi hpi

/-- C8 (witness on the demo file, at the stored credentialed proxy). -/
theorem C8_pool_scheme_witness :
    (ProxyInfo.mk (str "https") (str "h:1") (str "u") (str "p")).scheme = str "http" ∨
      (ProxyInfo.mk (str "https") (str "h:1") (str "u") (str "p")).scheme = str "https" :=
  C8_pool_scheme_invariant demoLines ⟨loadProxies demoLines, 0⟩ (by decide)
    ⟨str "https", str "h:1", str "u", str "p"⟩ (by decide)

/-! ## internal/server: client-facing auth check
(src/internal/server/server.go, checkAuthTCP and sendAuthRequiredTCP) -/

/-- The full 407 response sendAuthRequiredTCP writes, challenge header
included. -/
def authRequiredResponse : Bytes :=
  str "HTTP/1.1 407 Proxy Authentication Required\r\nProxy-Authenticate: Basic realm=\"ProxyFlow\"\r\n\r\n"

/-- The server's configured client-facing credentials. -/
structure ServerAuth where
  authUsername : Bytes
  authPassword : Bytes
deriving DecidableEq

/-- server.checkAuthTCP: whether the request passes, paired with the bytes
written to the client (the 407 challenge on failure, nothing on success).
When neither a username nor a password is configured the check is
skipped; otherwise a missing header, an undecodable header, or
credentials differing from the configured pair fail. -/
def checkAuthTCP (cfg : ServerAuth) (authHeader : Bytes) : Bool × List Bytes :=
  if cfg.authUsername = [] ∧ cfg.authPassword = [] then (true, [])
  else if authHeader = [] then (false, [authRequiredResponse])
  else
    match DecodeBasicAuth authHeader with
    | none => (false, [authRequiredResponse])
    | some up =>
      if up.1 ≠ cfg.authUsername ∨ up.2 ≠ cfg.authPassword then
        (false, [authRequiredResponse])
      else (true, [])

/-- C4: the auth check passes unconditionally when no server-side
username/password is configured; otherwise it fails with the 407 response
carrying Proxy-Authenticate: Basic realm="ProxyFlow" exactly when the
header is missing, fails Basic decoding, or decodes to a pair that is not
string-equal to the configured one; in all remaining cases it passes. -/
theorem C4_auth_check (cfg : ServerAuth) (h : Bytes) :
    (cfg.authUsername = [] ∧ cfg.authPassword = [] →
      checkAuthTCP cfg h = (true, [])) ∧
    (¬ (cfg.authUsername = [] ∧ cfg.authPassword = []) →
      (checkAuthTCP cfg h = (false, [authRequiredResponse]) ↔
        h = [] ∨ DecodeBasicAuth h = none ∨
          ∃ u p, DecodeBasicAuth h = some (u, p) ∧
            (u ≠ cfg.authUsername ∨ p ≠ cfg.authPassword)) ∧
      (checkAuthTCP cfg h = (true, []) ↔
        ∃ u p, DecodeBasicAuth h = some (u, p) ∧
          u = cfg.authUsername ∧ p = cfg.authPassword)) := by
  constructor
  · intro hc
    simp [checkAuthTCP, hc]
  · intro hc
    by_cases h0 : h = []
    · subst h0
      simp [checkAuthTCP, hc, DecodeBasicAuth]
    · cases hd : DecodeBasicAuth h with
      | none => simp [checkAuthTCP, hc, h0, hd]
      | some up =>
        obtain ⟨u, p⟩ := up
        have hck : checkAuthTCP cfg h =
            if u ≠ cfg.authUsername ∨ p ≠ cfg.authPassword then
              (false, [authRequiredResponse])
            else (true, []) := by
          simp only [checkAuthTCP, if_neg hc, if_neg h0, hd]
        rw [hck]
        by_cases hcred : u ≠ cfg.authUsername ∨ p ≠ cfg.authPassword
        · rw [if_pos hcred]
          constructor
          · simp only [true_iff]
            exact Or.inr (Or.inr ⟨u, p, rfl, hcred⟩)
          · constructor
            · intro hx; cases hx
            · rintro ⟨u', p', hd', rfl, rfl⟩
              injection hd' with hd''
              injection hd'' with h1 h2
              rcases hcred with hx | hx
              · exact absurd h1 hx
              · exact absurd h2 hx
        · rw [if_neg hcred]
          push_neg at hcred
          obtain ⟨rfl, rfl⟩ := hcred
          constructor
          · constructor
            · intro hx; cases hx
            · rintro (hx | hx | ⟨u', p', hd', hne⟩)
              · exact absurd hx h0
              · cases hx
              · injection hd' with hd''
                injection hd'' with h1 h2
                rcases hne with hx | hx
                · exact absurd h1.symm hx
                · exact absurd h2.symm hx
          · simp only [true_iff]
            exact ⟨cfg.authUsername, cfg.authPassword, rfl, rfl, rfl⟩

/-- C4 (witness): the configured pair passes at a concrete input. -/
theorem C4_auth_check_witness :
    checkAuthTCP ⟨str "admin", str "secret"⟩
        (EncodeBasicAuth (str "admin") (str "secret")) = (true, []) :=
  ((C4_auth_check ⟨str "admin", str "secret"⟩
        (EncodeBasicAuth (str "admin") (str "secret"))).2 (by decide)).2.mpr
    ⟨str "admin", str "secret", by decide, rfl, rfl⟩

/-! ## internal/client (src/internal/client/client.go): the failover loop -/

/-- The outcome of executing one request through one proxy's cached
client: an abstract response id or an abstract error id. The network is
an oracle parameter of the embedding. -/
inductive ExecResult where
  | ok (resp : Nat)
  | fail (err : Nat)
deriving DecidableEq

/-- client.Do's result: the response with the proxy used, the "no proxies
available" error, or the all-proxies-failed error carrying the last
underlying error (`none` when every attempt was a skipped sentinel). -/
inductive DoResult where
  | success (resp : Nat) (used : ProxyInfo)
  | noProxies
  | allFailed (lastErr : Option Nat)
deriving DecidableEq

/-- The loop of client.Do with `n` iterations left: pick NextProxy, skip
the zero-Host sentinel, execute through the proxy's client, return on
first success, remember the last error. A NextProxy panic propagates
(`none`). -/
def clientDoLoop (exec : ProxyInfo → ExecResult) :
    Nat → Pool → Option Nat → Option (Pool × DoResult)
  | 0, p, lastErr => some (p, .allFailed lastErr)
  | n + 1, p, lastErr =>
    match p.NextProxy with
    | (_, none) => none
    | (p', some proxy) =>
      if proxy.host = [] then clientDoLoop exec n p' lastErr
      else
        match exec proxy with
        | .ok r => some (p', .success r proxy)
        | .fail e => clientDoLoop exec n p' (some e)

/-- client.Do: error when the pool is empty, otherwise loop Size()
times. -/
def clientDo (exec : ProxyInfo → ExecResult) (p : Pool) : Option (Pool × DoResult) :=
  if p.Size = 0 then some (p, .noProxies)
  else clientDoLoop exec p.Size p none

/-- First-success semantics over an attempt list, as the spec describes
the loop: sentinels (empty host) are skipped, the first successful
execution wins with its proxy, exhaustion yields the last error seen. -/
def firstSuccess (exec : ProxyInfo → ExecResult) :
    List ProxyInfo → Option Nat → DoResult
  | [], lastErr => .allFailed lastErr
  | a :: rest, lastErr =>
    if a.host = [] then firstSuccess exec rest lastErr
    else
      match exec a with
      | .ok r => .success r a
      | .fail e => firstSuccess exec rest (some e)

theorem clientDoLoop_spec (exec : ProxyInfo → ExecResult)
    (l : List ProxyInfo) (hl : l ≠ []) :
    ∀ (n : Nat) (c : Int) (lastErr : Option Nat), 0 ≤ c → c + n < i63 →
      ∃ c', clientDoLoop exec n ⟨l, c⟩ lastErr =
          some (⟨l, c'⟩, firstSuccess exec (attemptsFrom l c.toNat n) lastErr) ∧
        c ≤ c' ∧ c' ≤ c + n := by
  intro n
  induction n with
  | zero =>
    intro c lastErr h0 h1
    exact ⟨c, rfl, le_refl c, by omega⟩
  | succ n ih =>
    intro c lastErr h0 h1
    have hn1 : c + ↑(n + 1) < i63 := h1
    have hstep := NextProxy_no_wrap l c hl h0 (by push_cast at hn1; omega)
    have htoNat : (c + 1).toNat = c.toNat + 1 := by omega
    have hatt : attemptsFrom l c.toNat (n + 1) =
        l.getD ((c.toNat + 1) % l.length) ProxyInfo.zero ::
          attemptsFrom l (c.toNat + 1) n := rfl
    set a := l.getD ((c.toNat + 1) % l.length) ProxyInfo.zero with ha
    simp only [clientDoLoop, hstep]
    rw [hatt, firstSuccess]
    by_cases hhost : a.host = []
    · rw [if_pos hhost, if_pos hhost]
      obtain ⟨c', hc', hlo, hhi⟩ := ih (c + 1) lastErr (by omega) (by push_cast at hn1 ⊢; omega)
      rw [htoNat] at hc'
      exact ⟨c', hc', by omega, by push_cast; omega⟩
    · rw [if_neg hhost, if_neg hhost]
      cases hx : exec a with
      | ok r => exact ⟨c + 1, rfl, by omega, by push_cast; omega⟩
      | fail e =>
        obtain ⟨c', hc', hlo, hhi⟩ := ih (c + 1) (some e) (by omega) (by push_cast at hn1 ⊢; omega)
        rw [htoNat] at hc'
        exact ⟨c', hc', by omega, by push_cast; omega⟩

/-- C3: Client.Do loops at most Size() times, calling NextProxy() each
iteration, skipping zero-value sentinel proxies (empty Host), executing
the request through the client for the chosen proxy; it returns the
response and the used proxy on the first successful attempt, and after
the loop completes with no success it fails with an error carrying the
last underlying error. Formally: with the counter serialized and not
wrapping, clientDo equals the first-success semantics over the Size()
proxies the round-robin cursor yields, and the cursor advances by at most
Size(). -/
theorem C3_client_do (exec : ProxyInfo → ExecResult) (l : List ProxyInfo)
    (c : Int) (hl : l ≠ []) (h0 : 0 ≤ c) (h1 : c + l.length < i63) :
    ∃ c', clientDo exec ⟨l, c⟩ =
        some (⟨l, c'⟩, firstSuccess exec (attemptsFrom l c.toNat l.length) none) ∧
      c ≤ c' ∧ c' ≤ c + l.length := by
  unfold clientDo
  have hlen : ¬ (Pool.mk l c).Size = 0 := by
    simpa [Pool.Size] using List.length_pos.mpr hl |>.ne'
  rw [if_neg hlen]
  exact clientDoLoop_spec exec l hl l.length c none h0 h1

/-- A proxy with credentials, for witnesses. -/
def pCred : ProxyInfo := ⟨str "https", str "h:1", str "u", str "p"⟩

/-- A stored proxy with an empty host (as the line "http://" produces),
skipped as a sentinel by Client.Do. -/
def pEmptyHost : ProxyInfo := ⟨str "http", [], [], []⟩

/-- A demo execution oracle: only pB answers. -/
def demoExec : ProxyInfo → ExecResult :=
  fun pr => if pr = pB then .ok 7 else .fail 3

/-- C3 (witness): a pool holding a sentinel, a failing proxy and a
working proxy, starting at counter 0. -/
theorem C3_client_do_witness :
    ∃ c', clientDo demoExec ⟨[pEmptyHost, pA, pB], 0⟩ =
        some (⟨[pEmptyHost, pA, pB], c'⟩,
          firstSuccess demoExec (attemptsFrom [pEmptyHost, pA, pB] (Int.toNat 0) 3) none) ∧
      (0 : Int) ≤ c' ∧ c' ≤ 0 + [pEmptyHost, pA, pB].length :=
  C3_client_do demoExec [pEmptyHost, pA, pB] 0 (by decide) (by decide) (by decide)

/-! ## internal/server: the CONNECT branch
(src/internal/server/server.go, handleConnectTCP and connectThroughProxy) -/

/-- "HTTP/1.1 400 Bad Request". -/
def badRequestResponse : Bytes := str "HTTP/1.1 400 Bad Request\r\n\r\n"

/-- "HTTP/1.1 502 Bad Gateway". -/
def badGatewayResponse : Bytes := str "HTTP/1.1 502 Bad Gateway\r\n\r\n"

/-- "HTTP/1.1 200 Connection Established". -/
def connEstablishedResponse : Bytes := str "HTTP/1.1 200 Connection Established\r\n\r\n"

/-- strings.Fields: maximal runs of non-whitespace bytes. `cur` holds the
current field, reversed. -/
def goFieldsGo (cur : Bytes) : Bytes → List Bytes
  | [] => if cur = [] then [] else [cur.reverse]
  | c :: rest =>
    if isSpaceByte c then
      if cur = [] then goFieldsGo [] rest else cur.reverse :: goFieldsGo [] rest
    else goFieldsGo (c :: cur) rest

/-- strings.Fields. -/
def goFields (s : Bytes) : List Bytes := goFieldsGo [] s

/-- The CONNECT target: field[1] of the request line, trimmed, with
":443" appended when it contains no ':' — the code tests for a colon
(strings.Contains(destAddr, ":")), not for a port. -/
def connectTarget (field1 : Bytes) : Bytes :=
  let destAddr := trimSpace field1
  if 58 ∈ destAddr then destAddr else destAddr ++ str ":443"

/-- What the upstream network does for one CONNECT attempt through one
proxy: the dial fails, the write fails, the read fails, or the first read
returns a chunk of bytes. An oracle parameter of the embedding, keyed by
the proxy and the raw request bytes sent. -/
inductive NetOutcome where
  | dialFail
  | writeFail
  | readFail
  | chunk (data : Bytes)

/-- The network oracle for CONNECT attempts. -/
abbrev NetOracle := ProxyInfo → Bytes → NetOutcome

/-- The raw CONNECT request connectThroughProxy writes: request line,
Host, Proxy-Connection, Content-Length and, when the proxy has
credentials, a Proxy-Authorization header. -/
def connectRequestBytes (destAddr : Bytes) (proxy : ProxyInfo) : Bytes :=
  str "CONNECT " ++ destAddr ++ str " HTTP/1.1\r\nHost: " ++ destAddr ++
    str "\r\nProxy-Connection: Keep-Alive\r\nContent-Length: 0\r\n" ++
    (if proxy.username = [] then []
      else str "Proxy-Authorization: " ++
        EncodeBasicAuth proxy.username proxy.password ++ str "\r\n") ++
    str "\r\n"

/-- strings.Contains: the needle occurs as a contiguous substring of the
haystack. -/
def containsSub (needle : Bytes) : Bytes → Bool
  | [] => needle.isPrefixOf []
  | c :: rest => needle.isPrefixOf (c :: rest) || containsSub needle rest

/-- server.connectThroughProxy: dial the proxy, send the CONNECT request,
read the first response chunk, and require the literal substring "200"
anywhere in it; the established tunnel is opaque (Unit). -/
def connectThroughProxy (net : NetOracle) (destAddr : Bytes)
    (proxy : ProxyInfo) : Option Unit :=
  match net proxy (connectRequestBytes destAddr proxy) with
  | .dialFail => none
  | .writeFail => none
  | .readFail => none
  | .chunk data => if containsSub (str "200") data then some () else none

/-- What handleConnectTCP does to the client connection: writes, and the
bidirectional relay. -/
inductive ConnEvent where
  | write (bs : Bytes)
  | relay
deriving DecidableEq

/-- The failover loop of handleConnectTCP with `n` iterations left. The
Bool carries `err == nil` of the Go code (true initially: zero
iterations leave err nil). A NextProxy panic propagates (`none`). -/
def connectLoop (net : NetOracle) (destAddr : Bytes) :
    Nat → Pool → Bool → Option (Pool × Bool)
  | 0, p, connected => some (p, connected)
  | n + 1, p, _ =>
    match p.NextProxy with
    | (_, none) => none
    | (p', some proxy) =>
      match connectThroughProxy net destAddr proxy with
      | some _ => some (p', true)
      | none => connectLoop net destAddr n p' false

/-- server.handleConnectTCP: fewer than two fields in the request line is
a 400; then (with the header-reading loop abstracted into the extracted
`authHeader`) the client-facing auth check, the failover loop over
Size() proxies, and either "200 Connection Established" followed by the
bidirectional relay, or "502 Bad Gateway" when err is still non-nil. -/
def handleConnectTCP (net : NetOracle) (cfg : ServerAuth) (p : Pool)
    (firstLine : Bytes) (authHeader : Bytes) : Option (Pool × List ConnEvent) :=
  let parts := goFields firstLine
  if parts.length < 2 then some (p, [.write badRequestResponse])
  else
    let destAddr := connectTarget (parts.getD 1 [])
    let ac := checkAuthTCP cfg authHeader
    if ac.1 = false then some (p, ac.2.map .write)
    else
      match connectLoop net destAddr p.Size p true with
      | none => none
      | some pr =>
        if pr.2 then some (pr.1, [.write connEstablishedResponse, .relay])
        else some (pr.1, [.write badGatewayResponse])

theorem connectLoop_spec (net : NetOracle) (d : Bytes) (l : List ProxyInfo)
    (hl : l ≠ []) :
    ∀ (n : Nat) (c : Int) (flag : Bool), 0 ≤ c → c + n < i63 → (n = 0 → flag = false) →
      ∃ c', connectLoop net d n ⟨l, c⟩ flag =
          some (⟨l, c'⟩, (attemptsFrom l c.toNat n).any
            fun a => (connectThroughProxy net d a).isSome) ∧
        c ≤ c' ∧ c' ≤ c + n := by
  intro n
  induction n with
  | zero =>
    intro c flag h0 h1 hflag
    refine ⟨c, ?_, le_refl c, by omega⟩
    rw [hflag rfl]
    rfl
  | succ n ih =>
    intro c flag h0 h1 hflag
    have hn1 : c + ↑(n + 1) < i63 := h1
    have hstep := NextProxy_no_wrap l c hl h0 (by push_cast at hn1; omega)
    have hatt : attemptsFrom l c.toNat (n + 1) =
        l.getD ((c.toNat + 1) % l.length) ProxyInfo.zero ::
          attemptsFrom l (c.toNat + 1) n := rfl
    set a := l.getD ((c.toNat + 1) % l.length) ProxyInfo.zero with ha
    simp only [connectLoop, hstep]
    rw [hatt, List.any_cons]
    cases hx : connectThroughProxy net d a with
    | some u =>
      refine ⟨c + 1, ?_, by omega, by push_cast; omega⟩
      simp
    | none =>
      obtain ⟨c', hc', hlo, hhi⟩ :=
        ih (c + 1) false (by omega) (by push_cast at hn1 ⊢; omega) (fun _ => rfl)
      have htoNat : (c + 1).toNat = c.toNat + 1 := by omega
      rw [htoNat] at hc'
      refine ⟨c', ?_, by omega, by push_cast; omega⟩
      simpa using hc'

/-- C5 (counterexample): the target "[::1]" — an IPv6 literal without a
port — does NOT get ":443" appended, because the code tests for the
presence of a colon rather than of a port. -/
theorem C5_counterexample :
    connectTarget (str "[::1]") = str "[::1]" ∧
      connectTarget (str "[::1]") ≠ str "[::1]" ++ str ":443" := by
  decide

/-- C5 (amended): in the CONNECT branch, the target taken from field[1]
of the request line gets ':443' appended exactly when it contains no
colon (for a colon-free target this coincides with "lacks a port"); an
upstream handshake attempt counts as success exactly when the first
chunk read from the upstream contains the literal substring "200"; when
some attempt of the failover loop over the Size() cursor-selected
proxies succeeds the client is sent "HTTP/1.1 200 Connection
Established" followed by bidirectional relaying, and when all attempts
fail the client is sent "HTTP/1.1 502 Bad Gateway". -/
theorem C5_connect (net : NetOracle) (cfg : ServerAuth) (l : List ProxyInfo)
    (c : Int) (firstLine authHeader : Bytes)
    (hf : 2 ≤ (goFields firstLine).length)
    (hauth : (checkAuthTCP cfg authHeader).1 = true)
    (hl : l ≠ []) (h0 : 0 ≤ c) (h1 : c + l.length < i63) :
    (∀ (d : Bytes) (pr : ProxyInfo),
      (connectThroughProxy net d pr).isSome = true ↔
        ∃ data, net pr (connectRequestBytes d pr) = .chunk data ∧
          containsSub (str "200") data = true) ∧
    (∃ c', handleConnectTCP net cfg ⟨l, c⟩ firstLine authHeader =
        some (⟨l, c'⟩,
          if (attemptsFrom l c.toNat l.length).any (fun a =>
              (connectThroughProxy net
                (connectTarget ((goFields firstLine).getD 1 [])) a).isSome)
          then [.write connEstablishedResponse, .relay]
          else [.write badGatewayResponse]) ∧
      c ≤ c' ∧ c' ≤ c + l.length) := by
  constructor
  · intro d pr
    unfold connectThroughProxy
    cases hn : net pr (connectRequestBytes d pr) with
    | dialFail => simp
    | writeFail => simp
    | readFail => simp
    | chunk data =>
      by_cases hc : containsSub (str "200") data
      · simp [hc]
      · simp [hc]
  · have hlen : ¬ (goFields firstLine).length < 2 := by omega
    have hlen0 : (Pool.mk l c).Size = l.length := rfl
    unfold handleConnectTCP
    rw [if_neg hlen, if_neg (by rw [hauth]; simp)]
    obtain ⟨c', hc', hlo, hhi⟩ :=
      connectLoop_spec net (connectTarget ((goFields firstLine).getD 1 [])) l hl
        l.length c true h0 h1
        (fun hz => absurd (List.length_eq_zero.mp hz) hl)
    rw [hlen0, hc']
    by_cases hany : (attemptsFrom l c.toNat l.length).any (fun a =>
        (connectThroughProxy net
          (connectTarget ((goFields firstLine).getD 1 [])) a).isSome)
    · rw [if_pos hany]
      refine ⟨c', ?_, hlo, hhi⟩
      rw [hany]
      simp
    · rw [if_neg hany]
      refine ⟨c', ?_, hlo, hhi⟩
      rw [Bool.eq_false_iff.mpr hany]
      simp

/-- The CONNECT network oracle for the witness: only pB completes the
handshake, answering with a 200 status line. -/
def demoNet : NetOracle := fun pr _ =>
  if pr = pB then .chunk (str "HTTP/1.1 200 Connection Established\r\n\r\n")
  else .dialFail

/-- C5 (witness at a concrete CONNECT request over a two-proxy pool). -/
theorem C5_connect_witness :
    (∀ (d : Bytes) (pr : ProxyInfo),
      (connectThroughProxy demoNet d pr).isSome = true ↔
        ∃ data, demoNet pr (connectRequestBytes d pr) = .chunk data ∧
          containsSub (str "200") data = true) ∧
    (∃ c', handleConnectTCP demoNet ⟨[], []⟩ ⟨[pA, pB], 0⟩
        (str "CONNECT example.com:443 HTTP/1.1") [] =
        some (⟨[pA, pB], c'⟩,
          if (attemptsFrom [pA, pB] (Int.toNat 0) [pA, pB].length).any (fun a =>
              (connectThroughProxy demoNet
                (connectTarget ((goFields (str "CONNECT example.com:443 HTTP/1.1")).getD 1 [])) a).isSome)
          then [.write connEstablishedResponse, .relay]
          else [.write badGatewayResponse]) ∧
      (0 : Int) ≤ c' ∧ c' ≤ 0 + [pA, pB].length) :=
  C5_connect demoNet ⟨[], []⟩ [pA, pB] 0
    (str "CONNECT example.com:443 HTTP/1.1") [] (by decide) (by decide)
    (by decide) (by decide) (by decide)

/-! ## internal/server: the HTTP branch through the body read
(src/internal/server/server.go, handleHTTPTCP lines 258–304) -/

/-- fmt.Sscanf(value, "%d", &contentLength): an optional sign followed by
at least one digit parses as a base-10 integer, further bytes are
ignored; no digit, or a value outside int64, is a scan error (`none`). -/
def goSscanfInt (v : Bytes) : Option Int :=
  let sign : Int := if v.headD 0 = 45 then -1 else 1
  let rest := if v.headD 0 = 45 ∨ v.headD 0 = 43 then v.tail else v
  let digits := rest.takeWhile isDigitB
  if digits = [] then none
  else
    let m : Nat := digits.foldl (fun acc d => acc * 10 + (d - 48)) 0
    let val : Int := sign * m
    if -9223372036854775808 ≤ val ∧ val ≤ 9223372036854775807 then some val
    else none

/-- The effective Content-Length of one header occurrence: the code sets
contentLength to 0 whenever the Sscanf does not report exactly one
converted item. -/
def parseContentLength (v : Bytes) : Int := (goSscanfInt v).getD 0

/-- The per-connection header state handleHTTPTCP accumulates: the
lowercase-keyed header map, the extracted proxy-authorization value, and
the running contentLength. -/
structure HeaderState where
  headers : List (Bytes × Bytes)
  authHeader : Bytes
  contentLength : Int
deriving DecidableEq

/-- Go map assignment headers[k] = v: replace or insert. -/
def setHeader (hs : List (Bytes × Bytes)) (k v : Bytes) : List (Bytes × Bytes) :=
  if hs.any (fun kv => kv.1 == k) then
    hs.map fun kv => if kv.1 == k then (k, v) else kv
  else hs ++ [(k, v)]

/-- One (already trimmed, non-blank) header line: the first ':' must not
be at position 0; the key is trimmed and lowercased, the value trimmed;
proxy-authorization and content-length are captured specially. A line
without such a colon is ignored. -/
def scanHeaderLine (st : HeaderState) (line : Bytes) : HeaderState :=
  match cutFirst 58 line with
  | none => st
  | some kv =>
    if kv.1 = [] then st
    else
      let key := (trimSpace kv.1).map lowerByte
      let value := trimSpace kv.2
      let st1 := { st with headers := setHeader st.headers key value }
      if key = str "proxy-authorization" then { st1 with authHeader := value }
      else if key = str "content-length" then
        { st1 with contentLength := parseContentLength value }
      else st1

/-- The header loop: each raw line is trimmed; a blank line ends the
headers; running out of input without a blank line is a read error (the
handler then returns silently). -/
def scanHeaders (st : HeaderState) : List Bytes → Option HeaderState
  | [] => none
  | line :: rest =>
    let t := trimSpace line
    if t = [] then some st
    else scanHeaders (scanHeaderLine st t) rest

/-- Where handleHTTPTCP stands after the body read. -/
inductive HttpFront where
  | bad400
  | silentClose
  | auth407
  | ready (st : HeaderState) (body : Bytes)
deriving DecidableEq

/-- handleHTTPTCP through the body read: the request line needs three
fields (else 400), the headers are scanned (EOF before the blank line
returns silently), the client-facing auth check runs, and then exactly
contentLength bytes of body are read when contentLength > 0 — a short
read is a 400. `avail` is what the client has sent after the blank line.
Returned alongside: the bytes written to the client so far. -/
def handleHTTPFront (cfg : ServerAuth) (firstLine : Bytes)
    (headerLines : List Bytes) (avail : Bytes) : HttpFront × List Bytes :=
  if (goFields firstLine).length < 3 then (.bad400, [badRequestResponse])
  else
    match scanHeaders ⟨[], [], 0⟩ headerLines with
    | none => (.silentClose, [])
    | some st =>
      let ac := checkAuthTCP cfg st.authHeader
      if ac.1 = false then (.auth407, ac.2)
      else
        if 0 < st.contentLength then
          if st.contentLength.toNat ≤ avail.length then
            (.ready st (avail.take st.contentLength.toNat), [])
          else (.bad400, [badRequestResponse])
        else (.ready st [], [])

theorem cutFirst_append (t : Nat) (a b : Bytes) (ha : t ∉ a) :
    cutFirst t (a ++ t :: b) = some (a, b) := by
  induction a with
  | nil => simp [cutFirst]
  | cons x rest ih =>
    have hx : x ≠ t := by
      intro hx; exact ha (by simp [hx])
    have hrest : t ∉ rest := fun hm => ha (by simp [hm])
    simp [cutFirst, hx, ih hrest]

/-- C9: in the HTTP branch, a Content-Length value that fails integer
parsing is silently treated as 0 — the header loop stores 0 and no 400 is
sent for the malformed value itself; when the parsed Content-Length is
positive, exactly that many body bytes are read; and a short read causes
a 400 Bad Request and connection close. -/
theorem C9_content_length (cfg : ServerAuth) (firstLine : Bytes)
    (headerLines : List Bytes) (avail : Bytes) (st : HeaderState)
    (hf : 3 ≤ (goFields firstLine).length)
    (hs : scanHeaders ⟨[], [], 0⟩ headerLines = some st)
    (hauth : (checkAuthTCP cfg st.authHeader).1 = true) :
    (∀ v : Bytes, goSscanfInt v = none → parseContentLength v = 0) ∧
    (∀ (s : HeaderState) (v : Bytes),
      (scanHeaderLine s (str "content-length:" ++ v)).contentLength =
        parseContentLength (trimSpace v)) ∧
    (st.contentLength ≤ 0 →
      handleHTTPFront cfg firstLine headerLines avail = (.ready st [], [])) ∧
    (0 < st.contentLength → st.contentLength.toNat ≤ avail.length →
      handleHTTPFront cfg firstLine headerLines avail =
        (.ready st (avail.take st.contentLength.toNat), [])) ∧
    (0 < st.contentLength → avail.length < st.contentLength.toNat →
      handleHTTPFront cfg firstLine headerLines avail =
        (.bad400, [badRequestResponse])) := by
  have hfront : handleHTTPFront cfg firstLine headerLines avail =
      if 0 < st.contentLength then
        if st.contentLength.toNat ≤ avail.length then
          (.ready st (avail.take st.contentLength.toNat), [])
        else (.bad400, [badRequestResponse])
      else (.ready st [], []) := by
    unfold handleHTTPFront
    rw [if_neg (by omega), hs]
    simp only [hauth]
    rw [if_neg (by simp [hauth])]
  refine ⟨?_, ?_, ?_, ?_, ?_⟩
  · intro v hv
    simp [parseContentLength, hv]
  · intro s v
    have hcut : cutFirst 58 (str "content-length:" ++ v) =
        some (str "content-length", v) := by
      have : str "content-length:" ++ v = str "content-length" ++ 58 :: v := by
        simp [str]
      rw [this]
      exact cutFirst_append 58 (str "content-length") v (by decide)
    rw [scanHeaderLine, hcut]
    simp only
    rw [if_neg (by decide)]
    have hkey : (trimSpace (str "content-length")).map lowerByte = str "content-length" := by
      decide
    rw [hkey]
    rw [if_neg (by decide), if_pos rfl]
  · intro hcl
    rw [hfront, if_neg (by omega)]
  · intro hcl hav
    rw [hfront, if_pos hcl, if_pos hav]
  · intro hcl hav
    rw [hfront, if_pos hcl, if_neg (by omega)]

/-- C9 (witness): a malformed Content-Length of "abc" is stored as 0 and
the request proceeds with an empty body and no 400. -/
theorem C9_content_length_witness :
    handleHTTPFront ⟨[], []⟩ (str "GET http://example.com/ HTTP/1.1")
        [str "Content-Length: abc", str ""] [] =
      (.ready ⟨[(str "content-length", str "abc")], [], 0⟩ [], []) :=
  (C9_content_length ⟨[], []⟩ (str "GET http://example.com/ HTTP/1.1")
      [str "Content-Length: abc", str ""] []
      ⟨[(str "content-length", str "abc")], [], 0⟩
      (by decide) (by decide) (by decide)).2.2.1 (by decide)

end ProxyFlow
